import Mathlib

/-!
Verification of the scene asset dependency resolution subsystem of the
zync-maya plugin. Python strings are modelled as `List Char`; Python
exceptions as `Except`; `re.sub` passes as left-to-right scanners over the
character list. The sources embedded here are `scripts/zync_maya.py`
(`seq_to_glob`, `_replace_attr_tokens`, `_file_handler`, `_vrmesh_handler`,
`_mesh_handler`, `get_scene_files`, `get_scene_info`),
`scripts/renderman_maya.py` (`parse_rib_archives`, `_process_rib_queue`),
and the historical `zync_maya.py` (`seq_to_glob`, `_file_handler`).
-/

namespace ZyncMaya

/-- Python exceptions raised by the embedded code. `mayaZyncException` carries
the resolved glob from the too-broad message; `valueError` models the error
`cmds.getAttr` raises when an attribute does not exist on a node. -/
inductive PyErr where
  | mayaZyncException (payload : List Char)
  | valueError (payload : List Char)
  deriving DecidableEq, Repr

/-- ASCII lowercasing of one character, modelling Python `str.lower()` on the
characters occurring in file paths. -/
def lowerChar (c : Char) : Char :=
  if 'A' ≤ c ∧ c ≤ 'Z' then Char.ofNat (c.toNat + 32) else c

/-- Case-insensitive test that `pat` (an all-lowercase literal) begins the
string `s`, as a regex literal under `re.IGNORECASE` would. -/
def startsWithCI : List Char → List Char → Bool
  | [], _ => true
  | _ :: _, [] => false
  | p :: ps, c :: cs => (lowerChar c == p) && startsWithCI ps cs

/-- Case-insensitive substring containment: models `pat in s.lower()` for an
all-lowercase literal `pat`. -/
def containsCI (pat : List Char) : List Char → Bool
  | [] => startsWithCI pat []
  | c :: cs => startsWithCI pat (c :: cs) || containsCI pat cs

/-- One left-to-right non-overlapping substitution pass: wherever the matcher
`m` reports a match of `n` consumed characters, emit `'*'` and skip them;
otherwise keep the character. Fuelled so that every matcher can be plugged in;
`pyReSub` supplies fuel equal to the string length, which suffices because
every matcher used here consumes at least one character per match. -/
def scanRep (m : List Char → Option Nat) : Nat → List Char → List Char
  | 0, s => s
  | _ + 1, [] => []
  | fuel + 1, c :: cs =>
    match m (c :: cs) with
    | some n => '*' :: scanRep m fuel ((c :: cs).drop n)
    | none => c :: scanRep m fuel cs

/-- Models `re.sub(pattern, '*', s)` for the patterns used by `seq_to_glob`,
with the pattern given as a matcher `m`. -/
def pyReSub (m : List Char → Option Nat) (s : List Char) : List Char :=
  scanRep m s.length s

/-- Matcher for a case-insensitive literal token such as `<udim>`. -/
def matchTok (pat : List Char) (s : List Char) : Option Nat :=
  if startsWithCI pat s then some pat.length else none

/-- Matcher for an alternation of two case-insensitive literals, e.g. the
pattern `<u>|<v>` or `<udim>|<tile>`. -/
def matchTok2 (p1 p2 : List Char) (s : List Char) : Option Nat :=
  match matchTok p1 s with
  | some n => some n
  | none => matchTok p2 s

/-- Matcher for the regex `#+`: a maximal run of `'#'` characters. -/
def matchHash : List Char → Option Nat
  | '#' :: cs => some (1 + (cs.takeWhile (fun c => c == '#')).length)
  | _ => none

/-- Matcher for the regex `<frame0\d+>` under `re.IGNORECASE`. -/
def matchFrame0 (s : List Char) : Option Nat :=
  if startsWithCI ('<' :: 'f' :: 'r' :: 'a' :: 'm' :: 'e' :: '0' :: []) s then
    let rest := s.drop 7
    let ds := rest.takeWhile Char.isDigit
    if ds.isEmpty then none
    else
      match rest.drop ds.length with
      | '>' :: _ => some (7 + ds.length + 1)
      | _ => none
  else none

/-- Matcher for the regex `<attr:.*?>` under `re.IGNORECASE`: the literal
`<attr:`, then (non-greedily) any characters other than newline, up to the
first `'>'`. -/
def matchAttr (s : List Char) : Option Nat :=
  if startsWithCI ('<' :: 'a' :: 't' :: 't' :: 'r' :: ':' :: []) s then
    let rest := s.drop 6
    let mid := rest.takeWhile (fun c => !(c == '>') && !(c == '\n'))
    match rest.drop mid.length with
    | '>' :: _ => some (6 + mid.length + 1)
    | _ => none
  else none

/-- Models `os.path.basename` (posix): the part of `p` after the last `'/'`. -/
def basename (p : List Char) : List Char :=
  (p.reverse.takeWhile (fun c => !(c == '/'))).reverse

/-- The part of `p` up to and including the last `'/'` (posix `p[:i]` with
`i = p.rfind('/') + 1`). -/
def dirnameRaw (p : List Char) : List Char :=
  (p.reverse.dropWhile (fun c => !(c == '/'))).reverse

/-- Models `os.path.dirname` (posix): everything before the last `'/'`, with
trailing slashes stripped unless the head consists solely of slashes. -/
def dirname (p : List Char) : List Char :=
  let h := dirnameRaw p
  if h.isEmpty || h.all (fun c => c == '/') then h
  else (h.reverse.dropWhile (fun c => c == '/')).reverse

/-- The last maximal digit run of `base`, as found by
`list(re.finditer(r'\d+', base))[-1]`: returns `(pre, run, suf)` with
`base = pre ++ run ++ suf`, `run` a nonempty digit run, `suf` digit-free, or
`none` when `base` has no digit. -/
def lastDigitRunSplit (base : List Char) : Option (List Char × List Char × List Char) :=
  let r := base.reverse
  let sufR := r.takeWhile (fun c => !c.isDigit)
  let r2 := r.dropWhile (fun c => !c.isDigit)
  let runR := r2.takeWhile Char.isDigit
  let r3 := r2.dropWhile Char.isDigit
  if runR.isEmpty then none
  else some (r3.reverse, runR.reverse, sufR.reverse)

/-- Embeds `_replace_attr_tokens` of scripts/zync_maya.py: a falsy (empty)
path is returned unchanged; otherwise every `<attr:...>` token is replaced by
`'*'`, and if the substituted result has no character other than `'/'` and
`'*'` a `MayaZyncException` is raised (carrying the resolved glob). -/
def replaceAttrTokens (path : List Char) : Except PyErr (List Char) :=
  if path.isEmpty then .ok path
  else
    let globPath := pyReSub matchAttr path
    if globPath.any (fun c => !(c == '/') && !(c == '*')) then .ok globPath
    else .error (.mayaZyncException globPath)

/-- Embeds `seq_to_glob` of scripts/zync_maya.py on a non-None input: attr
tokens, then `<meshitem>`, then the first applicable of the checks for
`<udim>`, `<tile>`, `<uvtile>`, `'#'` runs, `u<u>_v<v>`, `<frame0N>` (each
check returns immediately), and finally the heuristic replacement of the last
digit run of the basename. -/
def seqToGlob (inPath : List Char) : Except PyErr (List Char) :=
  match replaceAttrTokens inPath with
  | .error e => .error e
  | .ok p0 =>
    let p := pyReSub (matchTok "<meshitem>".data) p0
    if containsCI "<udim>".data p then .ok (pyReSub (matchTok "<udim>".data) p)
    else if containsCI "<tile>".data p then .ok (pyReSub (matchTok "<tile>".data) p)
    else if containsCI "<uvtile>".data p then .ok (pyReSub (matchTok "<uvtile>".data) p)
    else if p.contains '#' then .ok (pyReSub matchHash p)
    else if containsCI "u<u>_v<v>".data p then
      .ok (pyReSub (matchTok2 "<u>".data "<v>".data) p)
    else if containsCI "<frame0".data p then .ok (pyReSub matchFrame0 p)
    else
      match lastDigitRunSplit (basename p) with
      | some (pre, _run, suf) => .ok (dirname p ++ '/' :: (pre ++ '*' :: suf))
      | none => .ok p

/-- Embeds `seq_to_glob` including its `None` guard: `seq_to_glob(None)`
returns `None` before any other processing. -/
def seqToGlobOpt : Option (List Char) → Except PyErr (Option (List Char))
  | none => .ok none
  | some p =>
    match seqToGlob p with
    | .ok q => .ok (some q)
    | .error e => .error e

/-- Embeds the historical `seq_to_glob` of zync_maya.py (lines 103-108): it
unconditionally replaces the last digit run of the basename; on a basename
with no digit, `list(...)[-1]` raises IndexError, modelled as `none`. -/
def seqToGlobOld (inPath : List Char) : Option (List Char) :=
  match lastDigitRunSplit (basename inPath) with
  | some (pre, _run, suf) => some (dirname inPath ++ '/' :: (pre ++ '*' :: suf))
  | none => none

/-- Models `os.path.splitext(p)[0]` (posix): drop the extension starting at
the last `'.'` of the basename, unless the basename up to that dot consists
solely of dots. -/
def splitextHead (p : List Char) : List Char :=
  let b := basename p
  let rest := b.dropWhile (fun c => c == '.')
  if rest.contains '.' then
    let extLen := (b.reverse.takeWhile (fun c => !(c == '.'))).length + 1
    p.take (p.length - extLen)
  else p

/-- Models Python `s.replace('\\', '/')`: path separator normalization. -/
def normalizeSlashes (s : List Char) : List Char :=
  s.map (fun c => if c = '\\' then '/' else c)

/-- One entry of the RIB scan work queue: the tuple `(file, node, file_type)`
put by `_enqueue_rib_files` and `_process_rib_queue`. -/
structure RibItem where
  file : List Char
  node : List Char
  ftype : List Char
  deriving DecidableEq, Repr

/-- Embeds the loop of `Renderman._process_rib_queue`: while the queue is
nonempty and the progress window is not cancelled, dequeue an item, yield its
separator-normalized path, and when its type is `'rib'` enqueue everything
`_parse_rib_archive` extracts from it (abstracted as `parse`). `cancelled k`
is the result of the k-th `isCancelled` query; the function returns the
yielded paths together with the number of queries consumed, or `none` when
the loop does not finish within `fuel` iterations. -/
def processRibQueue (parse : List Char → List (List Char × List Char))
    (cancelled : Nat → Bool) : Nat → Nat → List RibItem → Option (List (List Char) × Nat)
  | 0, _, _ => none
  | _ + 1, k, [] => some ([], k)
  | fuel + 1, k, item :: rest =>
    if cancelled k then some ([], k + 1)
    else
      let newQueue :=
        if item.ftype = "rib".data then
          rest ++ (parse item.file).map (fun ft => RibItem.mk ft.1 item.node ft.2)
        else rest
      match processRibQueue parse cancelled fuel (k + 1) newQueue with
      | some (out, m) => some (normalizeSlashes item.file :: out, m)
      | none => none

/-- Outcome of running `parse_rib_archives` to exhaustion: the paths its
generator yielded, and the exception it raised afterwards, if any. -/
structure RibResult where
  yielded : List (List Char)
  raised : Option (List Char)
  deriving DecidableEq, Repr

/-- Embeds `Renderman.parse_rib_archives`: an empty initial queue returns at
once; otherwise the queue is processed, and after the loop one more
`isCancelled` query decides whether `MayaZyncException('Submission
cancelled')` is raised — after the partial results were already yielded. -/
def parseRibArchives (parse : List Char → List (List Char × List Char))
    (cancelled : Nat → Bool) (initial : List RibItem) (fuel : Nat) :
    Option RibResult :=
  if initial.isEmpty then some ⟨[], none⟩
  else
    match processRibQueue parse cancelled fuel 0 initial with
    | some (out, k) =>
      if cancelled k then some ⟨out, some "Submission cancelled".data⟩
      else some ⟨out, none⟩
    | none => none

/-- Result of `cmds.getAttr` for one attribute name on one node: an error when
the attribute does not exist, otherwise its value, which may be Python `None`
(the inner `none`). -/
def GetAttr : Type := List Char → Except PyErr (Option (List Char))

/-- Embeds `_vrmesh_handler`: a single unguarded `cmds.getAttr` of the
`fileName` attribute; a missing attribute propagates as an error. -/
def vrmeshHandler (g : GetAttr) : Except PyErr (List (Option (List Char))) :=
  match g "fileName".data with
  | .ok v => .ok [v]
  | .error e => .error e

/-- Embeds `_mesh_handler`: for each of the two proxy attributes, a
try/except-guarded `cmds.getAttr` that yields the value only when the read
succeeded and the value is not `None`; errors never escape. -/
def meshHandler (g : GetAttr) : Except PyErr (List (Option (List Char))) :=
  .ok (["miProxyFile".data, "rman__param___draFile".data].filterMap (fun a =>
    match g a with
    | .ok (some v) => some (some v)
    | _ => none))

/-- A scene node for dispatch in `get_scene_files`: its Maya node type and
its attribute accessor. -/
structure SceneNode where
  nodeType : List Char
  attrs : GetAttr

/-- Dispatch of `get_scene_files`'s `file_types` table, restricted to the two
node kinds cited by the claims (`VRayMesh` and `mesh`); other kinds of the
table are not needed and contribute no files here. -/
def nodeHandler (n : SceneNode) : Except PyErr (List (Option (List Char))) :=
  if n.nodeType = "VRayMesh".data then vrmeshHandler n.attrs
  else if n.nodeType = "mesh".data then meshHandler n.attrs
  else .ok []

/-- Embeds the yield loop of `get_scene_files`: run each node's handler, keep
only truthy paths (not `None`, not empty), and normalize separators. A handler
exception propagates to the caller. -/
def getSceneFiles (scene : List SceneNode) : Except PyErr (List (List Char)) :=
  match scene with
  | [] => .ok []
  | n :: rest =>
    match nodeHandler n, getSceneFiles rest with
    | .ok vs, .ok others =>
      .ok ((vs.filterMap (fun v =>
        match v with
        | some s => if s.isEmpty then none else some (normalizeSlashes s)
        | none => none)) ++ others)
    | .error e, _ => .error e
    | _, .error e => .error e

/-- Embeds the `'files'` assembly of `get_scene_info`:
`list(set(get_scene_files()))` (the Python set modelled as `List.dedup`; the
yields of `get_scene_files` are already separator-normalized) followed by
appending each of `extra_assets` with `'\\'` replaced by `'/'`. -/
def sceneInfoFiles (sceneFiles extraAssets : List (List Char)) : List (List Char) :=
  sceneFiles.dedup ++ extraAssets.map normalizeSlashes

/-- Embeds `_file_handler` of scripts/zync_maya.py, abstracting the Maya
reads: `texturePath` is `get_file_node_path(node)`, `usesSeq` is
`node_uses_image_sequence(node)`, `arnoldUseTx` is the
`use_existing_tiled_textures` attribute (`False` when its read raises) and
`overrides` are the values from `_get_layer_overrides`. When `arnoldUseTx` is
set, the derived `.tx` sibling is yielded with no existence check. -/
def fileHandler (texturePath : List Char) (usesSeq arnoldUseTx : Bool)
    (overrides : List (List Char)) : Except PyErr (List (List Char)) :=
  match (if usesSeq then seqToGlob texturePath else .ok texturePath) with
  | .error e => .error e
  | .ok tp =>
    .ok (tp :: (if arnoldUseTx then [splitextHead tp ++ ".tx".data] else []) ++ overrides)

/-- Embeds the historical `_file_handler` of zync_maya.py (lines 110-139):
inside one try/except, the path is sequence3-globbed when `useFrameExtension`
is set (the historical `seq_to_glob` raises IndexError on a digit-free
basename, caught by the except which then yields the raw path), `<udim>` and
`<tile>` tokens become `'*'`, and the derived `.tx` sibling is yielded only
when `arnoldUseTx` is set and the sibling exists on the filesystem. -/
def fileHandlerOld (texturePath : List Char) (useFrameExtension arnoldUseTx : Bool)
    (fsExists : List Char → Bool) : List (List Char) :=
  match (if useFrameExtension then seqToGlobOld texturePath else some texturePath) with
  | none => [texturePath]
  | some q =>
    let outPath := pyReSub (matchTok2 "<udim>".data "<tile>".data) q
    let txPath := splitextHead outPath ++ ".tx".data
    outPath :: (if arnoldUseTx && fsExists txPath then [txPath] else [])

/-- Modelled from the spec: `parse_frame_range` is exercised by
`zync_maya_test.py` but its definition is not among the provided sources.
Spec grammar for one signed integer: an optional leading `'-'` followed by
one or more digits; returns the value and the unconsumed rest. -/
def parseSignedInt (s : List Char) : Option (Int × List Char) :=
  let neg := match s with
    | '-' :: _ => true
    | _ => false
  let s1 := if neg then s.drop 1 else s
  let ds := s1.takeWhile Char.isDigit
  if ds.isEmpty then none
  else
    let n : Nat := ds.foldl (fun a c => a * 10 + (c.toNat - 48)) 0
    some (if neg then -(n : Int) else (n : Int), s1.drop ds.length)

/-- Modelled from the spec: one comma-separated clause of a frame range
expression is either a single (possibly negative) integer `N`, giving the
pair `(N, N)`, or `N-M` with possibly negative bounds, giving `(N, M)`;
anything else fails. -/
def parseClause (s : List Char) : Option (Int × Int) :=
  match parseSignedInt s with
  | none => none
  | some (a, rest) =>
    match rest with
    | [] => some (a, a)
    | '-' :: r2 =>
      match parseSignedInt r2 with
      | some (b, []) => some (a, b)
      | _ => none
    | _ => none

/-- Ascending run of `n + 1` consecutive integers starting at `a`. -/
def rangeSeqUp (a : Int) : Nat → List Int
  | 0 => [a]
  | n + 1 => a :: rangeSeqUp (a + 1) n

/-- Descending run of `n + 1` consecutive integers starting at `a`. -/
def rangeSeqDown (a : Int) : Nat → List Int
  | 0 => [a]
  | n + 1 => a :: rangeSeqDown (a - 1) n

/-- Modelled from the spec: the ordered sequence of integers from `a` to `b`
inclusive, stepping by exactly 1 in the direction inferred from the bounds. -/
def rangeSeq (a b : Int) : List Int :=
  if a ≤ b then rangeSeqUp a (b - a).toNat else rangeSeqDown a (a - b).toNat

/-- Models Python `expr.split(',')`. -/
def splitOnComma : List Char → List (List Char)
  | [] => [[]]
  | c :: cs =>
    if c = ',' then [] :: splitOnComma cs
    else
      match splitOnComma cs with
      | h :: t => (c :: h) :: t
      | [] => [[c]]

/-- Combines one parsed clause with the expansion of the clauses after it:
a clause matching neither grammar fails, naming the offending clause. -/
def combineClause (clause : List Char) (acc : Except (List Char) (List Int)) :
    Except (List Char) (List Int) :=
  match parseClause clause, acc with
  | some (a, b), .ok rest => .ok (rangeSeq a b ++ rest)
  | none, _ => .error clause
  | _, .error e => .error e

/-- Modelled from the spec: `parse_frame_range(expr)` splits the expression on
commas, parses every clause, and concatenates the per-clause sequences in
input order; it fails with a parse error when any clause matches neither
accepted grammar. -/
def parseFrameRange (expr : List Char) : Except (List Char) (List Int) :=
  (splitOnComma expr).foldr combineClause (.ok [])

/-- Archive contents for the cyclic-reference scenario: every RIB archive
textually references itself (`_parse_rib_archive` returns the reference). -/
def cycParse : List Char → List (List Char × List Char) :=
  fun f => [(f, "rib".data)]

/-- The queue item of the self-referencing archive. -/
def cycItem : RibItem :=
  RibItem.mk "a.rib".data "node1".data "rib".data

/-- An attribute accessor for a node on which every attribute read raises,
as `cmds.getAttr` does for an attribute the node does not have. -/
def missingAttrs : GetAttr := fun a => .error (.valueError a)

/-! Helper lemmas. -/

theorem rangeSeqUp_ne_nil (a : Int) (n : Nat) : rangeSeqUp a n ≠ [] := by
  cases n <;> simp [rangeSeqUp]

theorem rangeSeqDown_ne_nil (a : Int) (n : Nat) : rangeSeqDown a n ≠ [] := by
  cases n <;> simp [rangeSeqDown]

theorem rangeSeqUp_head (a : Int) (n : Nat) : (rangeSeqUp a n).head? = some a := by
  cases n <;> simp [rangeSeqUp]

theorem rangeSeqDown_head (a : Int) (n : Nat) : (rangeSeqDown a n).head? = some a := by
  cases n <;> simp [rangeSeqDown]

theorem rangeSeqUp_last (n : Nat) : ∀ a : Int, (rangeSeqUp a n).getLast? = some (a + n) := by
  induction n with
  | zero => intro a; simp [rangeSeqUp]
  | succ n ih =>
    intro a
    have h := ih (a + 1)
    cases hn : rangeSeqUp (a + 1) n with
    | nil => exact absurd hn (rangeSeqUp_ne_nil _ _)
    | cons b l =>
      rw [show rangeSeqUp a (n + 1) = a :: rangeSeqUp (a + 1) n from rfl, hn]
      rw [List.getLast?_cons_cons]
      rw [← hn, h]
      congr 1
      push_cast
      ring

theorem rangeSeqDown_last (n : Nat) : ∀ a : Int, (rangeSeqDown a n).getLast? = some (a - n) := by
  induction n with
  | zero => intro a; simp [rangeSeqDown]
  | succ n ih =>
    intro a
    have h := ih (a - 1)
    cases hn : rangeSeqDown (a - 1) n with
    | nil => exact absurd hn (rangeSeqDown_ne_nil _ _)
    | cons b l =>
      rw [show rangeSeqDown a (n + 1) = a :: rangeSeqDown (a - 1) n from rfl, hn]
      rw [List.getLast?_cons_cons]
      rw [← hn, h]
      congr 1
      push_cast
      ring

theorem rangeSeqUp_chain (n : Nat) :
    ∀ a : Int, List.Chain' (fun x y => y = x + 1) (rangeSeqUp a n) := by
  induction n with
  | zero => intro a; simp [rangeSeqUp]
  | succ n ih =>
    intro a
    have h := ih (a + 1)
    cases n with
    | zero => simp [rangeSeqUp]
    | succ m =>
      rw [show rangeSeqUp a (m + 1 + 1) = a :: rangeSeqUp (a + 1) (m + 1) from rfl]
      rw [show rangeSeqUp (a + 1) (m + 1) = (a + 1) :: rangeSeqUp (a + 1 + 1) m from rfl]
      exact (List.chain'_cons).mpr ⟨rfl, by
        rw [show (a + 1) :: rangeSeqUp (a + 1 + 1) m = rangeSeqUp (a + 1) (m + 1) from rfl]
        exact h⟩

theorem rangeSeqDown_chain (n : Nat) :
    ∀ a : Int, List.Chain' (fun x y => y = x - 1) (rangeSeqDown a n) := by
  induction n with
  | zero => intro a; simp [rangeSeqDown]
  | succ n ih =>
    intro a
    have h := ih (a - 1)
    cases n with
    | zero => simp [rangeSeqDown]
    | succ m =>
      rw [show rangeSeqDown a (m + 1 + 1) = a :: rangeSeqDown (a - 1) (m + 1) from rfl]
      rw [show rangeSeqDown (a - 1) (m + 1) = (a - 1) :: rangeSeqDown (a - 1 - 1) m from rfl]
      exact (List.chain'_cons).mpr ⟨rfl, by
        rw [show (a - 1) :: rangeSeqDown (a - 1 - 1) m = rangeSeqDown (a - 1) (m + 1) from rfl]
        exact h⟩

theorem rangeSeq_head (a b : Int) : (rangeSeq a b).head? = some a := by
  unfold rangeSeq
  by_cases h : a ≤ b
  · simp [h, rangeSeqUp_head]
  · simp [h, rangeSeqDown_head]

theorem rangeSeq_last (a b : Int) : (rangeSeq a b).getLast? = some b := by
  unfold rangeSeq
  by_cases h : a ≤ b
  · rw [if_pos h, rangeSeqUp_last]
    congr 1
    have : ((b - a).toNat : Int) = b - a := Int.toNat_of_nonneg (by omega)
    omega
  · rw [if_neg h, rangeSeqDown_last]
    congr 1
    have : ((a - b).toNat : Int) = a - b := Int.toNat_of_nonneg (by omega)
    omega

theorem rangeSeq_chain_up (a b : Int) (h : a ≤ b) :
    List.Chain' (fun x y => y = x + 1) (rangeSeq a b) := by
  unfold rangeSeq
  rw [if_pos h]
  exact rangeSeqUp_chain _ a

theorem rangeSeq_chain_down (a b : Int) (h : b < a) :
    List.Chain' (fun x y => y = x - 1) (rangeSeq a b) := by
  unfold rangeSeq
  rw [if_neg (by omega)]
  exact rangeSeqDown_chain _ a

theorem foldr_combineClause_error (cs : List (List Char)) (c : List Char)
    (hc : c ∈ cs) (hfail : parseClause c = none) :
    ∃ e, cs.foldr combineClause (.ok []) = .error e := by
  induction cs with
  | nil => cases hc
  | cons d rest ih =>
    rcases List.mem_cons.mp hc with h | h
    · subst h
      exact ⟨c, by simp [combineClause, hfail]⟩
    · rcases ih h with ⟨e, he⟩
      rw [List.foldr_cons, he]
      cases hyp : parseClause d with
      | none => exact ⟨d, by simp [combineClause, hyp]⟩
      | some ab => exact ⟨e, by cases ab; simp [combineClause, hyp]⟩

theorem head_dropWhile_false {α : Type} (p : α → Bool) :
    ∀ (l : List α) (a : α), (l.dropWhile p).head? = some a → p a = false := by
  intro l
  induction l with
  | nil => intro a h; simp [List.dropWhile] at h
  | cons c cs ih =>
    intro a h
    rw [List.dropWhile_cons] at h
    by_cases hc : p c
    · rw [if_pos hc] at h
      exact ih a h
    · rw [if_neg hc] at h
      simp only [List.head?_cons, Option.some.injEq] at h
      subst h
      exact Bool.not_eq_true _ ▸ (by simpa using hc)

theorem lastDigitRunSplit_eq {base pre run suf : List Char}
    (h : lastDigitRunSplit base = some (pre, run, suf)) :
    base = pre ++ run ++ suf ∧ run ≠ [] ∧ (∀ c ∈ run, c.isDigit = true) ∧
    (∀ c ∈ suf, c.isDigit = false) ∧
    (∀ d, pre.getLast? = some d → d.isDigit = false) := by
  unfold lastDigitRunSplit at h
  by_cases hemp : ((base.reverse.dropWhile (fun c => !c.isDigit)).takeWhile Char.isDigit).isEmpty
  · rw [if_pos hemp] at h
    cases h
  · rw [if_neg hemp] at h
    injection h with h'
    have hpre : pre =
        ((base.reverse.dropWhile (fun c => !c.isDigit)).dropWhile Char.isDigit).reverse :=
      (congrArg Prod.fst h').symm
    have hrun : run =
        ((base.reverse.dropWhile (fun c => !c.isDigit)).takeWhile Char.isDigit).reverse :=
      (congrArg (fun t => t.2.1) h').symm
    have hsuf : suf = (base.reverse.takeWhile (fun c => !c.isDigit)).reverse :=
      (congrArg (fun t => t.2.2) h').symm
    have hb2 : (base.reverse.dropWhile (fun c => !c.isDigit)).takeWhile Char.isDigit ++
        (base.reverse.dropWhile (fun c => !c.isDigit)).dropWhile Char.isDigit =
        base.reverse.dropWhile (fun c => !c.isDigit) :=
      List.takeWhile_append_dropWhile _ _
    have hb1 : base.reverse.takeWhile (fun c => !c.isDigit) ++
        base.reverse.dropWhile (fun c => !c.isDigit) = base.reverse :=
      List.takeWhile_append_dropWhile _ _
    refine ⟨?_, ?_, ?_, ?_, ?_⟩
    · rw [hpre, hrun, hsuf, ← List.reverse_append, ← List.reverse_append, hb2, hb1,
        List.reverse_reverse]
    · rw [hrun]
      simp only [ne_eq, List.reverse_eq_nil_iff]
      intro hx
      rw [hx] at hemp
      simp at hemp
    · intro c hc
      rw [hrun, List.mem_reverse] at hc
      exact List.mem_takeWhile_imp hc
    · intro c hc
      rw [hsuf, List.mem_reverse] at hc
      have := List.mem_takeWhile_imp hc
      simpa using this
    · intro d hd
      rw [hpre, List.getLast?_reverse] at hd
      exact head_dropWhile_false Char.isDigit _ d hd

theorem seqToGlob_digit_branch (p pre run suf : List Char)
    (h1 : replaceAttrTokens p = .ok p)
    (h2 : pyReSub (matchTok "<meshitem>".data) p = p)
    (h3 : containsCI "<udim>".data p = false)
    (h4 : containsCI "<tile>".data p = false)
    (h5 : containsCI "<uvtile>".data p = false)
    (h6 : p.contains '#' = false)
    (h7 : containsCI "u<u>_v<v>".data p = false)
    (h8 : containsCI "<frame0".data p = false)
    (h9 : lastDigitRunSplit (basename p) = some (pre, run, suf)) :
    seqToGlob p = .ok (dirname p ++ '/' :: (pre ++ '*' :: suf)) := by
  unfold seqToGlob
  rw [h1]
  simp only [h2, h3, h4, h5, h6, h7, h8, h9, Bool.false_eq_true, if_false]

/-! Claim theorems. -/

/-- C4: `parse_frame_range` maps the comma-separated clauses `N` and `N-M`
(with optional negative signs) to the ordered integer sequence stepping by
exactly 1 in the inferred direction — `'45-42'` yields `[45,44,43,42]`,
`'-5--3'` yields `[-5,-4,-3]`, `'1,57'` yields `[1,57]` — every expansion of
a clause `(a, b)` starts at `a`, ends at `b` and steps by exactly 1 up or
down, and any expression with a clause matching neither grammar (such as
`'notAFrameRange'`) fails with a parse error. -/
theorem parseFrameRange_spec :
    parseFrameRange "45-42".data = .ok [45, 44, 43, 42] ∧
    parseFrameRange "-5--3".data = .ok [-5, -4, -3] ∧
    parseFrameRange "1,57".data = .ok [1, 57] ∧
    (∃ e, parseFrameRange "notAFrameRange".data = .error e) ∧
    (∀ a b : Int, (rangeSeq a b).head? = some a ∧ (rangeSeq a b).getLast? = some b ∧
      (a ≤ b → List.Chain' (fun x y => y = x + 1) (rangeSeq a b)) ∧
      (b < a → List.Chain' (fun x y => y = x - 1) (rangeSeq a b))) ∧
    (∀ expr c, c ∈ splitOnComma expr → parseClause c = none →
      ∃ e, parseFrameRange expr = .error e) := by
  refine ⟨by rfl, by rfl, by rfl, ⟨"notAFrameRange".data, by rfl⟩, ?_, ?_⟩
  · intro a b
    exact ⟨rangeSeq_head a b, rangeSeq_last a b, rangeSeq_chain_up a b,
      rangeSeq_chain_down a b⟩
  · intro expr c hc hfail
    exact foldr_combineClause_error (splitOnComma expr) c hc hfail

/-- Witness for C4 at the concrete clause `45-42` and the concrete failing
expression `notAFrameRange`. -/
theorem parseFrameRange_spec_witness :
    (rangeSeq 45 42).head? = some 45 ∧
    List.Chain' (fun x y => y = x - 1) (rangeSeq 45 42) ∧
    (∃ e, parseFrameRange "notAFrameRange".data = .error e) :=
  ⟨(parseFrameRange_spec.2.2.2.2.1 45 42).1,
   (parseFrameRange_spec.2.2.2.2.1 45 42).2.2.2 (by decide),
   parseFrameRange_spec.2.2.2.2.2 "notAFrameRange".data "notAFrameRange".data
     (by decide) (by decide)⟩

/-- C6: on a path with no recognized token whose basename contains a digit,
both historical `seq_to_glob` implementations replace exactly the last
maximal digit run of the basename by a single `'*'` and leave the rest of the
basename and the directory part (`os.path.dirname`) unchanged: the result is
`dirname ++ '/' ++ pre ++ '*' ++ suf` where `basename = pre ++ run ++ suf`,
`run` is a nonempty digit run, `suf` is digit-free and `pre` does not end in
a digit. -/
theorem seqToGlob_last_digit_run (p pre run suf : List Char)
    (h1 : replaceAttrTokens p = .ok p)
    (h2 : pyReSub (matchTok "<meshitem>".data) p = p)
    (h3 : containsCI "<udim>".data p = false)
    (h4 : containsCI "<tile>".data p = false)
    (h5 : containsCI "<uvtile>".data p = false)
    (h6 : p.contains '#' = false)
    (h7 : containsCI "u<u>_v<v>".data p = false)
    (h8 : containsCI "<frame0".data p = false)
    (h9 : lastDigitRunSplit (basename p) = some (pre, run, suf)) :
    seqToGlob p = .ok (dirname p ++ '/' :: (pre ++ '*' :: suf)) ∧
    seqToGlobOld p = some (dirname p ++ '/' :: (pre ++ '*' :: suf)) ∧
    basename p = pre ++ run ++ suf ∧ run ≠ [] ∧
    (∀ c ∈ run, c.isDigit = true) ∧ (∀ c ∈ suf, c.isDigit = false) ∧
    (∀ d, pre.getLast? = some d → d.isDigit = false) := by
  obtain ⟨he, hne, hrun, hsuf, hpre⟩ := lastDigitRunSplit_eq h9
  refine ⟨seqToGlob_digit_branch p pre run suf h1 h2 h3 h4 h5 h6 h7 h8 h9, ?_,
    he, hne, hrun, hsuf, hpre⟩
  unfold seqToGlobOld
  rw [h9]

/-- Witness for C6 at the path `shot/file.0012.exr`, whose basename splits as
`file.` ++ `0012` ++ `.exr`. -/
theorem seqToGlob_last_digit_run_witness :
    seqToGlob "shot/file.0012.exr".data = .ok "shot/file.*.exr".data ∧
    seqToGlobOld "shot/file.0012.exr".data = some "shot/file.*.exr".data := by
  have h := seqToGlob_last_digit_run "shot/file.0012.exr".data
    "file.".data "0012".data ".exr".data
    (by rfl) (by rfl) (by decide) (by decide) (by decide) (by decide) (by decide)
    (by decide) (by decide)
  exact ⟨h.1, h.2.1⟩

/-- C10: on a token-free path whose basename contains a digit run but which
has no directory component (`os.path.dirname` is empty), `seq_to_glob`
prepends a `'/'` to the transformed basename, because the result is rebuilt
as `dirname + '/' + new_base`; and `seq_to_glob(None)` returns `None`
without raising. -/
theorem seqToGlob_no_dir_leading_slash (p pre run suf : List Char)
    (h1 : replaceAttrTokens p = .ok p)
    (h2 : pyReSub (matchTok "<meshitem>".data) p = p)
    (h3 : containsCI "<udim>".data p = false)
    (h4 : containsCI "<tile>".data p = false)
    (h5 : containsCI "<uvtile>".data p = false)
    (h6 : p.contains '#' = false)
    (h7 : containsCI "u<u>_v<v>".data p = false)
    (h8 : containsCI "<frame0".data p = false)
    (h9 : lastDigitRunSplit (basename p) = some (pre, run, suf))
    (h10 : dirname p = []) :
    seqToGlob p = .ok ('/' :: (pre ++ '*' :: suf)) ∧
    seqToGlobOpt none = .ok none := by
  have h := seqToGlob_digit_branch p pre run suf h1 h2 h3 h4 h5 h6 h7 h8 h9
  rw [h10] at h
  exact ⟨h, rfl⟩

/-- Witness for C10 at the path `file.0001.exr`, which becomes
`/file.*.exr`. -/
theorem seqToGlob_no_dir_leading_slash_witness :
    seqToGlob "file.0001.exr".data = .ok "/file.*.exr".data ∧
    seqToGlobOpt none = .ok none :=
  seqToGlob_no_dir_leading_slash "file.0001.exr".data
    "file.".data "0001".data ".exr".data
    (by rfl) (by rfl) (by decide) (by decide) (by decide) (by decide) (by decide)
    (by decide) (by decide) (by decide)

/-- C3 counterexample: on the empty path the substituted result contains no
character other than `'/'` and `'*'` (vacuously), yet `_replace_attr_tokens`
returns it unchanged instead of raising, because the `if not path` guard
short-circuits the validation; so the claimed "if and only if" fails at the
empty path. -/
theorem replaceAttrTokens_empty_no_raise :
    replaceAttrTokens [] = .ok [] ∧
    (pyReSub matchAttr []).any (fun c => !(c == '/') && !(c == '*')) = false :=
  ⟨rfl, rfl⟩

/-- C3 (amended): for every non-empty path, `_replace_attr_tokens` replaces
every `<attr:...>` token with a single `'*'` and returns the result otherwise
unchanged, raising `MayaZyncException` if and only if the substituted result
contains no character other than `'/'` and `'*'`; in particular
`<attr:path>/<attr:texture>` raises while
`/path/to/textures/<attr:path>/<attr:texture>` returns
`/path/to/textures/*/*`. The empty path bypasses the validation and is
returned unchanged. -/
theorem replaceAttrTokens_spec (p : List Char) (hp : p ≠ []) :
    ((pyReSub matchAttr p).any (fun c => !(c == '/') && !(c == '*')) = true →
      replaceAttrTokens p = .ok (pyReSub matchAttr p)) ∧
    ((pyReSub matchAttr p).any (fun c => !(c == '/') && !(c == '*')) = false →
      replaceAttrTokens p = .error (.mayaZyncException (pyReSub matchAttr p))) ∧
    replaceAttrTokens "/path/to/textures/<attr:path>/<attr:texture>".data
      = .ok "/path/to/textures/*/*".data ∧
    replaceAttrTokens "<attr:path>/<attr:texture>".data
      = .error (.mayaZyncException "*/*".data) := by
  have hpe : p.isEmpty = false := by simpa [List.isEmpty_iff] using hp
  refine ⟨?_, ?_, by rfl, by rfl⟩
  · intro h
    unfold replaceAttrTokens
    simp [hpe, h]
  · intro h
    unfold replaceAttrTokens
    simp [hpe, h]

/-- Witness for C3 (amended) at the two concrete paths from the unit test. -/
theorem replaceAttrTokens_spec_witness :
    replaceAttrTokens "<attr:path>/<attr:texture>".data
      = .error (.mayaZyncException "*/*".data) ∧
    replaceAttrTokens "/path/to/textures/<attr:path>/<attr:texture>".data
      = .ok "/path/to/textures/*/*".data :=
  ⟨(replaceAttrTokens_spec "x".data (by decide)).2.2.2,
   (replaceAttrTokens_spec "x".data (by decide)).2.2.1⟩

/-- C5 counterexample: `seq_to_glob` substitutes only the first applicable
token class and returns immediately, so on `x<udim>y<tile>.png` the result
`x*y<tile>.png` still contains the recognized token `<tile>`, and re-running
the expansion changes it to `x*y*.png` — the output is neither token-free nor
a fixed point. -/
theorem seqToGlob_token_survives :
    seqToGlob "x<udim>y<tile>.png".data = .ok "x*y<tile>.png".data ∧
    containsCI "<tile>".data "x*y<tile>.png".data = true ∧
    seqToGlob "x*y<tile>.png".data = .ok "x*y*.png".data ∧
    "x*y<tile>.png".data ≠ "x*y*.png".data :=
  ⟨rfl, by decide, rfl, by decide⟩

/-- C5 (amended): `seq_to_glob` removes `<attr:...>` and `<meshitem>` tokens
and then substitutes only the first applicable token class, returning
immediately: on an attr- and meshitem-free path containing `<udim>`, the
result is exactly the path with each `<udim>` occurrence replaced by `'*'`,
so tokens of later classes survive in the output and the expansion is not
idempotent on paths mixing token classes. -/
theorem seqToGlob_first_token_class_only (p : List Char)
    (h1 : replaceAttrTokens p = .ok p)
    (h2 : pyReSub (matchTok "<meshitem>".data) p = p)
    (h3 : containsCI "<udim>".data p = true) :
    seqToGlob p = .ok (pyReSub (matchTok "<udim>".data) p) := by
  unfold seqToGlob
  rw [h1]
  simp only [h2, h3, if_true]

/-- Witness for C5 (amended) at `x<udim>y<tile>.png`. -/
theorem seqToGlob_first_token_class_only_witness :
    seqToGlob "x<udim>y<tile>.png".data
      = .ok (pyReSub (matchTok "<udim>".data) "x<udim>y<tile>.png".data) :=
  seqToGlob_first_token_class_only "x<udim>y<tile>.png".data
    (by rfl) (by rfl) (by decide)

theorem processRibQueue_count_ge (parse : List Char → List (List Char × List Char)) :
    ∀ (fuel k : Nat) (q : List RibItem) (out : List (List Char)) (m : Nat),
      processRibQueue parse (fun _ => false) fuel k q = some (out, m) →
      ∀ p, (q.map (fun i => normalizeSlashes i.file)).count p ≤ out.count p := by
  intro fuel
  induction fuel with
  | zero =>
    intro k q out m h
    cases h
  | succ fuel ih =>
    intro k q out m h p
    cases q with
    | nil =>
      rw [processRibQueue] at h
      injection h with h'
      have hout : out = [] := (congrArg Prod.fst h').symm
      rw [hout]
      simp
    | cons item rest =>
      rw [processRibQueue] at h
      simp only [Bool.false_eq_true, if_false] at h
      cases hrec : processRibQueue parse (fun _ => false) fuel (k + 1)
          (if item.ftype = "rib".data then
            rest ++ (parse item.file).map (fun ft => RibItem.mk ft.1 item.node ft.2)
          else rest) with
      | none =>
        rw [hrec] at h
        cases h
      | some pr =>
        obtain ⟨out', m'⟩ := pr
        rw [hrec] at h
        injection h with h'
        have hout : out = normalizeSlashes item.file :: out' :=
          (congrArg Prod.fst h').symm
        have hrest : (rest.map (fun i => normalizeSlashes i.file)).count p
            ≤ out'.count p := by
          refine le_trans ?_ (ih (k + 1) _ out' m' hrec p)
          by_cases hf : item.ftype = "rib".data
          · rw [if_pos hf, List.map_append, List.count_append]
            omega
          · rw [if_neg hf]
        rw [hout, List.map_cons, List.count_cons, List.count_cons]
        omega

theorem processRibQueue_cyc : ∀ (fuel k : Nat),
    processRibQueue cycParse (fun _ => false) fuel k [cycItem] = none := by
  intro fuel
  induction fuel with
  | zero => intro k; rfl
  | succ fuel ih =>
    intro k
    have hq : (if cycItem.ftype = "rib".data then
        ([] : List RibItem) ++
          (cycParse cycItem.file).map (fun ft => RibItem.mk ft.1 cycItem.node ft.2)
      else []) = [cycItem] := by decide
    rw [processRibQueue]
    simp only [Bool.false_eq_true, if_false, hq, ih]

theorem processRibQueue_cancelAt (parse : List Char → List (List Char × List Char)) :
    ∀ (fuel c : Nat) (q : List RibItem) (out : List (List Char)) (m : Nat),
      processRibQueue parse (fun _ => false) fuel c q = some (out, m) →
      ∀ k, processRibQueue parse (fun j => decide (c + k ≤ j)) fuel c q
        = some (out.take k, if k < out.length then c + k + 1 else c + out.length) := by
  intro fuel
  induction fuel with
  | zero =>
    intro c q out m h
    cases h
  | succ fuel ih =>
    intro c q out m h k
    cases q with
    | nil =>
      rw [processRibQueue] at h
      injection h with h'
      have hout : out = [] := (congrArg Prod.fst h').symm
      subst hout
      rw [processRibQueue]
      simp
    | cons item rest =>
      rw [processRibQueue] at h
      simp only [Bool.false_eq_true, if_false] at h
      cases hrec : processRibQueue parse (fun _ => false) fuel (c + 1)
          (if item.ftype = "rib".data then
            rest ++ (parse item.file).map (fun ft => RibItem.mk ft.1 item.node ft.2)
          else rest) with
      | none =>
        rw [hrec] at h
        cases h
      | some pr =>
        obtain ⟨out', m'⟩ := pr
        rw [hrec] at h
        injection h with h'
        have hout : out = normalizeSlashes item.file :: out' :=
          (congrArg Prod.fst h').symm
        subst hout
        cases k with
        | zero =>
          rw [processRibQueue]
          simp
        | succ k' =>
          have hfun : (fun j => decide (c + (k' + 1) ≤ j))
              = (fun j => decide ((c + 1) + k' ≤ j)) := by
            funext j
            have harith : c + (k' + 1) = (c + 1) + k' := by omega
            rw [harith]
          have hc := ih (c + 1) _ out' m' hrec k'
          rw [processRibQueue, hfun]
          have hguard : decide (c + (k' + 1) ≤ c) = false := by
            simp only [decide_eq_false_iff_not]
            omega
          rw [hguard]
          simp only [Bool.false_eq_true, if_false, hc]
          by_cases hk : k' < out'.length
          · rw [if_pos hk, if_pos (by simpa using Nat.succ_lt_succ hk)]
            simp only [List.take_succ_cons, Option.some.injEq, Prod.mk.injEq, true_and]
            omega
          · rw [if_neg hk, if_neg (by simp; omega)]
            simp only [List.take_succ_cons, List.length_cons, Option.some.injEq,
              Prod.mk.injEq, true_and]
            omega

/-- C1 counterexample: `_process_rib_queue` consults no visited-set, so when
two different nodes enqueue the same archive path `x.rib`, the completed
uncancelled scan yields that normalized path twice — it is scanned once per
reference, not once. -/
theorem processRibQueue_scans_duplicate_refs :
    processRibQueue (fun _ => []) (fun _ => false) 3 0
      [RibItem.mk "x.rib".data "node1".data "rib".data,
       RibItem.mk "x.rib".data "node2".data "rib".data]
      = some (["x.rib".data, "x.rib".data], 2) ∧
    (["x.rib".data, "x.rib".data].count "x.rib".data) = 2 :=
  ⟨rfl, by decide⟩

/-- C1 (amended): the scanner consults no visited-set before enqueue: in a
completed uncancelled scan every normalized path appears in the output at
least as many times as it appears in the queue, so a path referenced by two
different nodes is scanned twice; and the scan does not terminate on a cyclic
reference graph — with a self-referencing archive the queue never empties, so
no amount of fuel completes the loop. -/
theorem processRibQueue_no_dedup :
    (∀ (parse : List Char → List (List Char × List Char)) (fuel k : Nat)
        (q : List RibItem) (out : List (List Char)) (m : Nat),
      processRibQueue parse (fun _ => false) fuel k q = some (out, m) →
      ∀ p, (q.map (fun i => normalizeSlashes i.file)).count p ≤ out.count p) ∧
    (∀ (fuel k : Nat),
      processRibQueue cycParse (fun _ => false) fuel k [cycItem] = none) :=
  ⟨fun parse => processRibQueue_count_ge parse, processRibQueue_cyc⟩

/-- Witness for C1 (amended): the duplicate-reference queue of the
counterexample scenario yields `x.rib` at least twice, and the cyclic scan
returns no result at fuel 100. -/
theorem processRibQueue_no_dedup_witness :
    (([RibItem.mk "y.rib".data "n1".data "rib".data,
       RibItem.mk "y.rib".data "n2".data "rib".data].map
        (fun i => normalizeSlashes i.file)).count "y.rib".data
      ≤ (["y.rib".data, "y.rib".data]).count "y.rib".data) ∧
    processRibQueue cycParse (fun _ => false) 100 0 [cycItem] = none :=
  ⟨processRibQueue_no_dedup.1 (fun _ => []) 3 0
      [RibItem.mk "y.rib".data "n1".data "rib".data,
       RibItem.mk "y.rib".data "n2".data "rib".data]
      ["y.rib".data, "y.rib".data] 2 (by rfl) "y.rib".data,
   processRibQueue_no_dedup.2 100 0⟩

/-- C2 counterexample: when the cancellation predicate trips during the scan
(here from the second `isCancelled` query on), `parse_rib_archives` yields the
files scanned so far and then raises `MayaZyncException('Submission
cancelled')` rather than returning normally. -/
theorem parseRibArchives_raises_on_cancel :
    parseRibArchives (fun _ => []) (fun j => decide (1 ≤ j))
      [RibItem.mk "a.rib".data "n".data "rib".data,
       RibItem.mk "b.rib".data "n".data "rib".data] 5
      = some (RibResult.mk ["a.rib".data] (some "Submission cancelled".data)) := by
  rfl

/-- C2 (amended): when the caller cancels from the k-th `isCancelled` query
on (k at most the uncancelled yield count), the loop stops consuming the
queue and the files yielded are exactly the first k files of the uncancelled
run — a subset of the uncancelled result — but `parse_rib_archives` then
raises `MayaZyncException('Submission cancelled')`: the partial results are
retained, while cancellation surfaces as an exception rather than a normal
return. -/
theorem parseRibArchives_cancel_prefix_and_raise
    (parse : List Char → List (List Char × List Char)) (q : List RibItem)
    (hq : q ≠ []) (fuel : Nat) (out : List (List Char)) (m k : Nat)
    (hu : processRibQueue parse (fun _ => false) fuel 0 q = some (out, m))
    (hk : k ≤ out.length) :
    parseRibArchives parse (fun j => decide (k ≤ j)) q fuel
      = some (RibResult.mk (out.take k) (some "Submission cancelled".data)) ∧
    ∀ f ∈ out.take k, f ∈ out := by
  have hc := processRibQueue_cancelAt parse fuel 0 q out m hu k
  have hfun : (fun j => decide (0 + k ≤ j)) = (fun j => decide (k ≤ j)) := by
    funext j
    rw [Nat.zero_add]
  rw [hfun] at hc
  have hqe : q.isEmpty = false := by simpa [List.isEmpty_iff] using hq
  have hfinal : decide (k ≤ (if k < out.length then 0 + k + 1 else 0 + out.length))
      = true := by
    by_cases h : k < out.length
    · rw [if_pos h]
      simp only [decide_eq_true_eq]
      omega
    · rw [if_neg h]
      simp only [decide_eq_true_eq]
      omega
  constructor
  · unfold parseRibArchives
    rw [hqe]
    simp only [Bool.false_eq_true, if_false, hc, hfinal, if_true]
  · intro f hf
    exact List.take_subset k out hf

/-- Witness for C2 (amended): a two-item queue cancelled from the first query
on yields exactly the first file of the uncancelled run and raises. -/
theorem parseRibArchives_cancel_prefix_and_raise_witness :
    parseRibArchives (fun _ => []) (fun j => decide (1 ≤ j))
      [RibItem.mk "c.rib".data "n".data "rib".data,
       RibItem.mk "d.rib".data "n".data "rib".data] 7
      = some (RibResult.mk (["c.rib".data, "d.rib".data].take 1)
          (some "Submission cancelled".data)) :=
  (parseRibArchives_cancel_prefix_and_raise (fun _ => [])
    [RibItem.mk "c.rib".data "n".data "rib".data,
     RibItem.mk "d.rib".data "n".data "rib".data]
    (by decide) 7 ["c.rib".data, "d.rib".data] 2 1 (by rfl) (by decide)).1

/-- C7 counterexample: `_vrmesh_handler` reads the `fileName` attribute with
no try/except guard, so on a `VRayMesh` node missing that attribute the error
propagates out of `get_scene_files` to its caller — not every registered node
kind recovers a missing attribute as an empty sequence. -/
theorem getSceneFiles_vrmesh_missing_attr_raises :
    getSceneFiles [SceneNode.mk "VRayMesh".data missingAttrs]
      = .error (.valueError "fileName".data) := by
  rfl

/-- C7 (amended): handlers that read version-dependent optional attributes
guard the read — `_mesh_handler` never raises, and when both of its proxy
attributes are missing it yields nothing, so a mesh node with no proxy
attributes contributes no files and no error to `get_scene_files` — but
handlers such as `_vrmesh_handler` read attributes unguarded, and a missing
attribute there surfaces to the caller of `get_scene_files`. -/
theorem meshHandler_missing_attr_yields_nothing (g : GetAttr) (e1 e2 : PyErr)
    (hg1 : g "miProxyFile".data = .error e1)
    (hg2 : g "rman__param___draFile".data = .error e2) :
    meshHandler g = .ok [] ∧
    getSceneFiles [SceneNode.mk "mesh".data g] = .ok [] ∧
    (∀ h : GetAttr, ∃ l, meshHandler h = .ok l) := by
  have hm : meshHandler g = .ok [] := by
    unfold meshHandler
    simp [hg1, hg2]
  refine ⟨hm, ?_, fun h => ⟨_, rfl⟩⟩
  unfold getSceneFiles nodeHandler
  rw [if_neg (by simp), if_pos rfl, hm]
  rfl

/-- Witness for C7 (amended) at the all-attributes-missing accessor. -/
theorem meshHandler_missing_attr_yields_nothing_witness :
    meshHandler missingAttrs = .ok [] ∧
    getSceneFiles [SceneNode.mk "mesh".data missingAttrs] = .ok [] :=
  ⟨(meshHandler_missing_attr_yields_nothing missingAttrs
      (.valueError "miProxyFile".data) (.valueError "rman__param___draFile".data)
      rfl rfl).1,
   (meshHandler_missing_attr_yields_nothing missingAttrs
      (.valueError "miProxyFile".data) (.valueError "rman__param___draFile".data)
      rfl rfl).2.1⟩

/-- C8 counterexample: the `'files'` value of `get_scene_info` is a list, not
a set — the scene files are deduplicated through `set()`, but `extra_assets`
are appended afterwards without deduplication, so an extra asset already
among the scene files appears twice. -/
theorem sceneInfoFiles_duplicate_path :
    (sceneInfoFiles ["a".data] ["a".data]).count "a".data = 2 := by
  decide

/-- C8 (amended): the `'files'` list of `get_scene_info` contains every
element of `extra_assets` with separators normalized from `'\\'` to `'/'`
(superset), and its membership is exactly the union of the scene files and
the normalized extra assets; but it is not a set — a path may appear twice
when `extra_assets` overlaps the scene files or repeats itself. -/
theorem sceneInfoFiles_superset_extra (s e : List (List Char)) :
    (∀ x ∈ e, normalizeSlashes x ∈ sceneInfoFiles s e) ∧
    (∀ p, p ∈ sceneInfoFiles s e ↔ p ∈ s ∨ p ∈ e.map normalizeSlashes) := by
  constructor
  · intro x hx
    unfold sceneInfoFiles
    exact List.mem_append_right _ (List.mem_map_of_mem _ hx)
  · intro p
    unfold sceneInfoFiles
    simp [List.mem_append, List.mem_dedup]

/-- Witness for C8 (amended): a backslashed extra asset appears normalized in
the files list. -/
theorem sceneInfoFiles_superset_extra_witness :
    normalizeSlashes "b\\c".data ∈ sceneInfoFiles ["a".data] ["b\\c".data] :=
  (sceneInfoFiles_superset_extra ["a".data] ["b\\c".data]).1 "b\\c".data
    (by decide)

/-- C9 counterexample: the current `_file_handler` takes no account of the
filesystem at all — with `use_existing_tiled_textures` on it yields the
derived `.tx` sibling of `tex.jpg` unconditionally, with no existence check,
so a nonexistent derived sibling is included in the result. -/
theorem fileHandler_tx_without_existence_check :
    fileHandler "tex.jpg".data false true []
      = .ok ["tex.jpg".data, "tex.tx".data] := by
  rfl

/-- C9 (amended): only the historical `_file_handler` checks filesystem
existence before yielding the derived `.tx` sibling: its result is either the
single main path, or the main path followed by the derived sibling with the
existence probe returning true for it; the current `_file_handler` yields the
derived sibling unconditionally. -/
theorem fileHandlerOld_tx_exists_check (tp : List Char) (ufe aut : Bool)
    (fsExists : List Char → Bool) :
    (∃ out, fileHandlerOld tp ufe aut fsExists = [out]) ∨
    (∃ out, fileHandlerOld tp ufe aut fsExists
        = [out, splitextHead out ++ ".tx".data] ∧
      fsExists (splitextHead out ++ ".tx".data) = true) := by
  unfold fileHandlerOld
  cases h : (if ufe then seqToGlobOld tp else some tp) with
  | none => exact .inl ⟨tp, rfl⟩
  | some q =>
    by_cases hx : aut && fsExists
        (splitextHead (pyReSub (matchTok2 "<udim>".data "<tile>".data) q) ++ ".tx".data)
    · right
      refine ⟨pyReSub (matchTok2 "<udim>".data "<tile>".data) q, ?_, ?_⟩
      · simp only [hx, if_true]
      · exact (Bool.and_eq_true _ _).mp hx |>.2
    · left
      refine ⟨pyReSub (matchTok2 "<udim>".data "<tile>".data) q, ?_⟩
      simp only [hx, Bool.false_eq_true, if_false]

/-- Witness for C9 (amended) on an empty filesystem: the historical handler
yields only the main path. -/
theorem fileHandlerOld_tx_exists_check_witness :
    (∃ out, fileHandlerOld "a.jpg".data false true (fun _ => false) = [out]) ∨
    (∃ out, fileHandlerOld "a.jpg".data false true (fun _ => false)
        = [out, splitextHead out ++ ".tx".data] ∧
      (fun _ : List Char => false) (splitextHead out ++ ".tx".data) = true) :=
  fileHandlerOld_tx_exists_check "a.jpg".data false true (fun _ => false)

end ZyncMaya
